import Mathlib

/-!
Verification of the news-agent pipeline (src/news_agent.py) against its
natural-language specification.

The embedding models the pipeline from the point where configuration and
secrets have been loaded (lines 178-205 of the source): provider HTTP
responses, the organization list, the keyword-filter mapping and the loaded
seen-set are parameters; file and network I/O is abstracted as those
parameters.  Machine behaviour that the source relies on is modelled
explicitly:

* Python dicts are association lists with first-match lookup and
  update-in-place-or-append assignment (`dictGet` / `dictSet`);
* JSON scalar values loaded from `seen_articles.json` are modelled by `Jv`
  together with Python truthiness (`jvTruthy`); the source tests markers
  with `if not stored_hashes.get(h)`;
* `hashlib.sha256(...).hexdigest()` is implemented in full over `Nat`
  arithmetic modulo 2^32 (`sha256hex`), applied to the UTF-8 bytes of the
  hashed string, exactly as `str.encode()` produces them;
* `datetime.strptime` for the four formats in the source is implemented by
  `tryFormats`, mimicking CPython's `_strptime` (case-insensitive matching,
  1-2 digit numeric fields, whitespace in the format matching one or more
  whitespace characters, field range checks and date-construction validity
  checks both mapping to `ValueError`, i.e. to failure of that format);
  time is modelled at second precision, the precision of every format in
  the source.
* `datetime.now(timezone.utc)` / `datetime.utcnow()` are a single explicit
  `now : DT` parameter for the run.
-/

/-! ## Python dict and JSON value model -/

/-- JSON scalar values as loaded by `json.load`, restricted to the scalar
markers relevant to the seen-set file. -/
inductive Jv where
  | null : Jv
  | bool : Bool → Jv
  | num : Int → Jv
  | str : String → Jv
deriving DecidableEq, Repr

/-- Python truthiness of a JSON scalar value. -/
def jvTruthy : Jv → Bool
  | Jv.null => false
  | Jv.bool b => b
  | Jv.num n => n != 0
  | Jv.str s => s != ""

/-- Python truthiness of `d.get(k)`: `None` (missing key) is falsy. -/
def jvTruthyOpt : Option Jv → Bool
  | none => false
  | some v => jvTruthy v

/-- `d.get(k)` / `d.get(k, None)` on a Python dict modelled as an
association list with unique keys: first matching binding. -/
def dictGet {α : Type} : List (String × α) → String → Option α
  | [], _ => none
  | (k, v) :: rest, key => if k = key then some v else dictGet rest key

/-- `d[k] = v` on a Python dict: update the existing binding in place, or
append a new binding at the end (insertion order preserved). -/
def dictSet {α : Type} : List (String × α) → String → α → List (String × α)
  | [], key, val => [(key, val)]
  | (k, v) :: rest, key, val =>
    if k = key then (k, val) :: rest else (k, v) :: dictSet rest key val

/-! ## Articles -/

/-- An article dict as built by the two fetchers: `title` and `link` may be
`None` (the providers may omit them), `snippet` is defaulted to `""` at
construction (`i.get("snippet", "")`), `pub_date` may be absent, `source`
may be absent. -/
structure Article where
  title : Option String
  link : Option String
  snippet : String
  pub_date : Option String
  source : Option String
deriving DecidableEq, Repr

/-! ## SHA-256 (hashlib.sha256(...).hexdigest()) -/

/-- UTF-8 encoding of a single character, as `str.encode()` produces. -/
def utf8Encode (c : Char) : List Nat :=
  let n := c.toNat
  if n < 128 then [n]
  else if n < 2048 then [192 + n / 64, 128 + n % 64]
  else if n < 65536 then [224 + n / 4096, 128 + (n / 64) % 64, 128 + n % 64]
  else [240 + n / 262144, 128 + (n / 4096) % 64, 128 + (n / 64) % 64, 128 + n % 64]

/-- UTF-8 bytes of a string. -/
def strBytes (s : String) : List Nat :=
  (s.data.map utf8Encode).flatten

/-- 32-bit right rotation over `Nat` modulo 2^32. -/
def rotr32 (x n : Nat) : Nat :=
  (x >>> n ||| x <<< (32 - n)) % 4294967296

/-- 32-bit bitwise complement. -/
def not32 (x : Nat) : Nat := 4294967295 - x % 4294967296

/-- SHA-256 round constants. -/
def shaK : List Nat :=
  [1116352408, 1899447441, 3049323471, 3921009573, 961987163, 1508970993,
   2453635748, 2870763221, 3624381080, 310598401, 607225278, 1426881987,
   1925078388, 2162078206, 2614888103, 3248222580, 3835390401, 4022224774,
   264347078, 604807628, 770255983, 1249150122, 1555081692, 1996064986,
   2554220882, 2821834349, 2952996808, 3210313671, 3336571891, 3584528711,
   113926993, 338241895, 666307205, 773529912, 1294757372, 1396182291,
   1695183700, 1986661051, 2177026350, 2456956037, 2730485921, 2820302411,
   3259730800, 3345764771, 3516065817, 3600352804, 4094571909, 275423344,
   430227734, 506948616, 659060556, 883997877, 958139571, 1322822218,
   1537002063, 1747873779, 1955562222, 2024104815, 2227730452, 2361852424,
   2428436474, 2756734187, 3204031479, 3329325298]

/-- SHA-256 initial hash state. -/
def shaH0 : List Nat :=
  [1779033703, 3144134277, 1013904242, 2773480762,
   1359893119, 2600822924, 528734635, 1541459225]

/-- Big-endian bytes of `n`, `k` bytes wide. -/
def beBytes : Nat → Nat → List Nat
  | 0, _ => []
  | k + 1, n => beBytes k (n / 256) ++ [n % 256]

/-- SHA-256 padding: append 0x80, zeros, and the 64-bit big-endian bit
length, reaching a multiple of 64 bytes. -/
def shaPad (msg : List Nat) : List Nat :=
  let zeroes := (64 - (msg.length + 9) % 64) % 64
  msg ++ 128 :: List.replicate zeroes 0 ++ beBytes 8 (msg.length * 8)

/-- Group a byte list into big-endian 32-bit words. -/
def bytesToWords : List Nat → List Nat
  | b0 :: b1 :: b2 :: b3 :: rest =>
    (((b0 * 256 + b1) * 256 + b2) * 256 + b3) :: bytesToWords rest
  | _ => []

/-- Split a word list into 16-word blocks. -/
def toBlocks (ws : List Nat) : List (List Nat) :=
  if ws.length < 16 then [] else ws.take 16 :: toBlocks (ws.drop 16)
termination_by ws.length
decreasing_by
  simp [List.length_drop]
  omega

/-- Message-schedule extension of a 16-word block to 64 words. -/
def extendBlock (w16 : List Nat) : List Nat :=
  (List.range 48).foldl
    (fun w _ =>
      let n := w.length
      let w15 := w.getD (n - 15) 0
      let w2 := w.getD (n - 2) 0
      let s0 := rotr32 w15 7 ^^^ rotr32 w15 18 ^^^ (w15 >>> 3)
      let s1 := rotr32 w2 17 ^^^ rotr32 w2 19 ^^^ (w2 >>> 10)
      w ++ [(w.getD (n - 16) 0 + s0 + w.getD (n - 7) 0 + s1) % 4294967296])
    w16

/-- One SHA-256 compression round. -/
def shaRound (st : List Nat) (kw : Nat × Nat) : List Nat :=
  match st with
  | [a, b, c, d, e, f, g, h] =>
    let s1 := rotr32 e 6 ^^^ rotr32 e 11 ^^^ rotr32 e 25
    let ch := (e &&& f) ^^^ (not32 e &&& g)
    let t1 := (h + s1 + ch + kw.1 + kw.2) % 4294967296
    let s0 := rotr32 a 2 ^^^ rotr32 a 13 ^^^ rotr32 a 22
    let mj := (a &&& b) ^^^ (a &&& c) ^^^ (b &&& c)
    let t2 := (s0 + mj) % 4294967296
    [(t1 + t2) % 4294967296, a, b, c, (d + t1) % 4294967296, e, f, g]
  | other => other

/-- Process one block: 64 rounds then add back into the hash state. -/
def shaBlock (hs : List Nat) (block : List Nat) : List Nat :=
  let ws := extendBlock block
  let st := (shaK.zip ws).foldl shaRound hs
  (hs.zip st).map (fun p => (p.1 + p.2) % 4294967296)

/-- Lowercase hex digit. -/
def hexDigit (n : Nat) : Char :=
  match n with
  | 0 => '0' | 1 => '1' | 2 => '2' | 3 => '3' | 4 => '4'
  | 5 => '5' | 6 => '6' | 7 => '7' | 8 => '8' | 9 => '9'
  | 10 => 'a' | 11 => 'b' | 12 => 'c' | 13 => 'd' | 14 => 'e'
  | _ => 'f'

/-- 8 lowercase hex characters of a 32-bit word. -/
def wordHex (w : Nat) : List Char :=
  (List.range 8).map (fun i => hexDigit (w / 16 ^ (7 - i) % 16))

/-- `hashlib.sha256(bytes).hexdigest()`. -/
def sha256hexBytes (msg : List Nat) : String :=
  let blocks := toBlocks (bytesToWords (shaPad msg))
  let hs := blocks.foldl shaBlock shaH0
  String.mk (hs.map wordHex).flatten

/-- `hashlib.sha256(s.encode()).hexdigest()`. -/
def sha256hex (s : String) : String :=
  sha256hexBytes (strBytes s)

/-- `news_hash` (news_agent.py lines 24-27): SHA-256 hex digest of
`(title or '') + (link or '')`; `x or ''` maps both a missing/None value
and the empty string to `''`. -/
def news_hash (item : Article) : String :=
  sha256hex (item.title.getD "" ++ item.link.getD "")

/-! ## Datetime model (UTC, second precision) -/

/-- A UTC datetime at second precision, the result of a successful
`datetime.strptime(...).replace(tzinfo=timezone.utc)` or of
`datetime.now(timezone.utc)` (sub-second digits play no role in any
format used by the source). -/
structure DT where
  year : Nat
  month : Nat
  day : Nat
  hour : Nat
  minute : Nat
  second : Nat
deriving DecidableEq, Repr

/-- Gregorian leap year. -/
def isLeap (y : Nat) : Bool :=
  (y % 4 = 0 && y % 100 != 0) || y % 400 = 0

/-- Number of days of a month (`datetime` construction validity). -/
def daysInMonth (y m : Nat) : Nat :=
  if m = 2 then (if isLeap y then 29 else 28)
  else if m = 4 || m = 6 || m = 9 || m = 11 then 30
  else 31

/-- Days in years `1 .. y-1` of the proleptic Gregorian calendar. -/
def daysBeforeYear (y : Nat) : Nat :=
  let n := y - 1
  365 * n + n / 4 + n / 400 - n / 100

/-- Days in the months of year `y` strictly before month `m`. -/
def daysBeforeMonth (y m : Nat) : Nat :=
  let base :=
    match m with
    | 1 => 0 | 2 => 31 | 3 => 59 | 4 => 90 | 5 => 120 | 6 => 151
    | 7 => 181 | 8 => 212 | 9 => 243 | 10 => 273 | 11 => 304 | _ => 334
  base + (if 3 ≤ m && isLeap y then 1 else 0)

/-- Seconds since the calendar origin; the linearization used to compare
datetimes (`timedelta` arithmetic). -/
def dtSecs (dt : DT) : Nat :=
  (((daysBeforeYear dt.year + daysBeforeMonth dt.year dt.month + (dt.day - 1))
      * 24 + dt.hour) * 60 + dt.minute) * 60 + dt.second

/-- `datetime` construction validity: the checks whose failure raises
`ValueError` from `datetime.strptime` (year ≥ 1, month 1-12, day within the
month, hour ≤ 23, minute ≤ 59, second ≤ 59; the `%S` pattern admits 60 and
61, but constructing the `datetime` then fails, which the source's
`except ValueError: continue` treats exactly like a pattern mismatch). -/
def mkDT (y mo d h mi s : Nat) : Option DT :=
  if 1 ≤ y ∧ 1 ≤ mo ∧ mo ≤ 12 ∧ 1 ≤ d ∧ d ≤ daysInMonth y mo ∧
     h ≤ 23 ∧ mi ≤ 59 ∧ s ≤ 59
  then some ⟨y, mo, d, h, mi, s⟩ else none

/-- Field validity of a datetime value, as `datetime` guarantees for
anything `datetime.utcnow()` returns. -/
def ValidDT (dt : DT) : Prop :=
  1 ≤ dt.year ∧ dt.year ≤ 9999 ∧ 1 ≤ dt.month ∧ dt.month ≤ 12 ∧
  1 ≤ dt.day ∧ dt.day ≤ daysInMonth dt.year dt.month ∧
  dt.hour ≤ 23 ∧ dt.minute ≤ 59 ∧ dt.second ≤ 59

/-- A decimal digit character. -/
def digitChar (n : Nat) : Char :=
  match n with
  | 0 => '0' | 1 => '1' | 2 => '2' | 3 => '3' | 4 => '4'
  | 5 => '5' | 6 => '6' | 7 => '7' | 8 => '8' | _ => '9'

/-- Two-digit zero-padded decimal (`%m`, `%d`, `%H`, `%M`, `%S` in
`strftime` for their in-range values). -/
def pad2 (n : Nat) : List Char :=
  if n < 10 then ['0', digitChar n] else [digitChar (n / 10), digitChar (n % 10)]

/-- Four-digit zero-padded decimal (`%Y` in `strftime` for the years a
real clock produces). -/
def pad4 (n : Nat) : List Char :=
  [digitChar (n / 1000 % 10), digitChar (n / 100 % 10),
   digitChar (n / 10 % 10), digitChar (n % 10)]

/-- `strftime("%Y-%m-%dT%H:%M:%SZ")` as a character list. -/
def isoChars (dt : DT) : List Char :=
  pad4 dt.year ++ '-' :: pad2 dt.month ++ '-' :: pad2 dt.day ++
  'T' :: pad2 dt.hour ++ ':' :: pad2 dt.minute ++ ':' :: pad2 dt.second ++ ['Z']

/-- `datetime.utcnow().strftime("%Y-%m-%dT%H:%M:%SZ")` (line 119). -/
def isoFormat (dt : DT) : String := String.mk (isoChars dt)

/-! ## strptime model

CPython's `_strptime` compiles the format into a regex with `IGNORECASE`
(so letter literals and names match case-insensitively — modelled by
lowercasing the input once), turns whitespace runs in the format into
`\s+`, and matches numeric fields as 1-2 digit alternations (exactly 4
digits for `%Y`).  Because in every format of the source each numeric
field is followed by a non-digit literal or the end of the string, the
regex with backtracking accepts exactly: the maximal digit run at that
position has an allowed length and its value lies in the field's range. -/

/-- ASCII lowercasing, the effect of `IGNORECASE` on the characters that
can appear in the source's formats. -/
def lowerChar (c : Char) : Char :=
  if 'A' ≤ c && c ≤ 'Z' then Char.ofNat (c.toNat + 32) else c

/-- Lowercased character list of a string. -/
def lowerData (s : String) : List Char := s.data.map lowerChar

def isDig (c : Char) : Bool := '0' ≤ c && c ≤ '9'

def digVal (c : Char) : Nat := c.toNat - 48

/-- Maximal digit prefix and the remainder. -/
def takeDigits : List Char → List Char × List Char
  | [] => ([], [])
  | c :: cs =>
    if isDig c then
      let p := takeDigits cs
      (c :: p.1, p.2)
    else ([], c :: cs)

/-- Numeric value of a digit run. -/
def readNum (ds : List Char) : Nat :=
  ds.foldl (fun acc c => acc * 10 + digVal c) 0

/-- A 1-2 digit numeric field (`%m`, `%d`, `%H`, `%I`, `%M`, `%S`). -/
def readNum12 (cs : List Char) : Option (Nat × List Char) :=
  let p := takeDigits cs
  if p.1.length = 1 || p.1.length = 2 then some (readNum p.1, p.2) else none

/-- The exactly-4-digit `%Y` field. -/
def readNum4 (cs : List Char) : Option (Nat × List Char) :=
  let p := takeDigits cs
  if p.1.length = 4 then some (readNum p.1, p.2) else none

/-- A single (already lowercased) literal character of the format. -/
def litChar (c : Char) (cs : List Char) : Option (List Char) :=
  match cs with
  | [] => none
  | x :: rest => if x = c then some rest else none

/-- A sequence of literal characters. -/
def litStr : List Char → List Char → Option (List Char)
  | [], cs => some cs
  | c :: ps, cs => (litChar c cs).bind (litStr ps)

/-- `\s`, as the whitespace a format's literal blank matches. -/
def wsChar (c : Char) : Bool :=
  c = ' ' || c = '\t' || c = '\n' || c = '\r' || c = '\x0b' || c = '\x0c'

/-- `\s+`: one or more whitespace characters, consumed greedily (the next
token in every format of the source is never whitespace). -/
def litWS (cs : List Char) : Option (List Char) :=
  match cs with
  | [] => none
  | c :: rest => if wsChar c then some (rest.dropWhile (fun x => wsChar x)) else none

/-- `%p` in the `en_US`/C locale: `am` or `pm`, input already lowercased. -/
def readAmPm (cs : List Char) : Option (Bool × List Char) :=
  match cs with
  | 'a' :: 'm' :: rest => some (false, rest)
  | 'p' :: 'm' :: rest => some (true, rest)
  | _ => none

/-- Month names (lowercased) for `%b`. -/
def monthAbbrs : List (Nat × List Char) :=
  [(1, ['j','a','n']), (2, ['f','e','b']), (3, ['m','a','r']),
   (4, ['a','p','r']), (5, ['m','a','y']), (6, ['j','u','n']),
   (7, ['j','u','l']), (8, ['a','u','g']), (9, ['s','e','p']),
   (10, ['o','c','t']), (11, ['n','o','v']), (12, ['d','e','c'])]

/-- Month names (lowercased) for `%B`. -/
def monthFulls : List (Nat × List Char) :=
  [(1, "january".data), (2, "february".data), (3, "march".data),
   (4, "april".data), (5, "may".data), (6, "june".data),
   (7, "july".data), (8, "august".data), (9, "september".data),
   (10, "october".data), (11, "november".data), (12, "december".data)]

/-- Consume one month name; no name is a prefix of another, so the first
prefix match is the only one. -/
def readMonthName (names : List (Nat × List Char)) (cs : List Char) :
    Option (Nat × List Char) :=
  names.findSome? fun p =>
    if p.2.isPrefixOf cs then some (p.1, cs.drop p.2.length) else none

/-- Format `"%Y-%m-%dT%H:%M:%SZ"` on a lowercased character list. -/
def parseISO (cs : List Char) : Option DT :=
  (readNum4 cs).bind fun py =>
  (litChar '-' py.2).bind fun r1 =>
  (readNum12 r1).bind fun pmo =>
  (litChar '-' pmo.2).bind fun r2 =>
  (readNum12 r2).bind fun pd =>
  (litChar 't' pd.2).bind fun r3 =>
  (readNum12 r3).bind fun ph =>
  (litChar ':' ph.2).bind fun r4 =>
  (readNum12 r4).bind fun pmi =>
  (litChar ':' pmi.2).bind fun r5 =>
  (readNum12 r5).bind fun ps =>
  (litChar 'z' ps.2).bind fun r6 =>
  if r6.isEmpty then mkDT py.1 pmo.1 pd.1 ph.1 pmi.1 ps.1 else none

/-- First half of format `"%m/%d/%Y, %I:%M %p, +0000 UTC"`: the
`"%m/%d/%Y, "` part, yielding month, day, year and the remainder. -/
def parseUSDate (cs : List Char) : Option ((Nat × Nat × Nat) × List Char) :=
  (readNum12 cs).bind fun pmo =>
  (litChar '/' pmo.2).bind fun r1 =>
  (readNum12 r1).bind fun pd =>
  (litChar '/' pd.2).bind fun r2 =>
  (readNum4 r2).bind fun py =>
  (litChar ',' py.2).bind fun r3 =>
  (litWS r3).bind fun r4 =>
  some ((pmo.1, pd.1, py.1), r4)

/-- Second half of format `"%m/%d/%Y, %I:%M %p, +0000 UTC"`: the
`"%I:%M %p, +0000 UTC"` part; `%I` is range-limited to 1-12 by its
pattern and converted with `%p` exactly as `_strptime` does. -/
def parseUSTime (mo d y : Nat) (cs : List Char) : Option DT :=
  (readNum12 cs).bind fun ph =>
  (litChar ':' ph.2).bind fun r5 =>
  (readNum12 r5).bind fun pmi =>
  (litWS pmi.2).bind fun r6 =>
  (readAmPm r6).bind fun pp =>
  (litChar ',' pp.2).bind fun r7 =>
  (litWS r7).bind fun r8 =>
  (litStr "+0000".data r8).bind fun r9 =>
  (litWS r9).bind fun r10 =>
  (litStr "utc".data r10).bind fun r11 =>
  let h12 := ph.1
  let h := if pp.1 then (if h12 = 12 then 12 else h12 + 12)
           else (if h12 = 12 then 0 else h12)
  if r11.isEmpty ∧ 1 ≤ h12 ∧ h12 ≤ 12 then mkDT y mo d h pmi.1 0
  else none

/-- Format `"%m/%d/%Y, %I:%M %p, +0000 UTC"` on a lowercased character
list. -/
def parseUS (cs : List Char) : Option DT :=
  (parseUSDate cs).bind fun pa => parseUSTime pa.1.1 pa.1.2.1 pa.1.2.2 pa.2

/-- Formats `"%b %d, %Y"` and `"%B %d, %Y"` on a lowercased character
list, parameterized by the month-name table. -/
def parseMonDY (names : List (Nat × List Char)) (cs : List Char) : Option DT :=
  (readMonthName names cs).bind fun pmo =>
  (litWS pmo.2).bind fun r1 =>
  (readNum12 r1).bind fun pd =>
  (litChar ',' pd.2).bind fun r2 =>
  (litWS r2).bind fun r3 =>
  (readNum4 r3).bind fun py =>
  if py.2.isEmpty then mkDT py.1 pmo.1 pd.1 0 0 0 else none

/-- The format list of `article_within_last_24_hours` (lines 44-49), tried
in order; the first format that parses (pattern match plus `datetime`
construction) wins. -/
def tryFormats (s : String) : Option DT :=
  let cs := lowerData s
  (parseISO cs).orElse fun _ =>
  (parseUS cs).orElse fun _ =>
  (parseMonDY monthAbbrs cs).orElse fun _ =>
  parseMonDY monthFulls cs

/-- `article_within_last_24_hours` (lines 43-57): try each format; on the
first success compare `now - pub_date <= timedelta(hours=24)` (a negative
difference also satisfies the comparison); if no format parses, log and
return `False`. -/
def article_within_last_24_hours (now : DT) (pub_date_str : String) : Bool :=
  match tryFormats pub_date_str with
  | some pub_date => decide ((dtSecs now : Int) - dtSecs pub_date ≤ 86400)
  | none => false

/-! ## Keyword filter -/

/-- `str.lower()` restricted to ASCII, the alphabet of the embedded
strings. -/
def lowerStr (s : String) : String := String.mk (lowerData s)

/-- Python's substring test `sub in s` on character lists. -/
def containsSub (sub : List Char) : List Char → Bool
  | [] => sub.isEmpty
  | c :: cs => sub.isPrefixOf (c :: cs) || containsSub sub cs

/-- The matching predicate of line 63 for one article whose title slot
holds a string, so that `a.get('title', '')` evaluates to that string:
some lowered keyword occurs in
`(a.get('title', '') + ' ' + a.get('snippet', '')).lower()`.  An article
whose title slot holds `None` never reaches a match result — line 63
raises an uncaught TypeError on it; that path is carried by
`filter_articles_by_keywords_py` below, which guards every use of this
predicate. -/
def keywordHit (keywords_lower : List String) (a : Article) : Bool :=
  keywords_lower.any fun kw =>
    containsSub kw.data (lowerData (a.title.getD "" ++ " " ++ a.snippet))

/-- `filter_articles_by_keywords` (lines 59-63) on the runs where every
candidate article's title slot holds a string (the region where the
source produces a result at all — see `filter_articles_by_keywords_py`
for the embedding with the TypeError path explicit, and the agreement
conjunct of the C6 theorem): with a falsy (empty) keyword list every
article passes; otherwise keep the articles whose title-space-snippet
concatenation contains some keyword case-insensitively. -/
def filter_articles_by_keywords (articles : List Article)
    (keywords : List String) : List Article :=
  if keywords.isEmpty then articles
  else articles.filter (keywordHit (keywords.map lowerStr))

/-- `filter_articles_by_keywords` (lines 59-63) with the TypeError path
explicit.  With a falsy keyword list the articles are returned unfiltered
(lines 60-61, before any title access).  With a nonempty list, line 63
evaluates `a.get('title', '') + ' ' + a.get('snippet', '')` for every
article, and the fetchers store `"title": i.get("title")` (lines 86, 116),
so an article whose title slot holds `None` makes the addition raise an
uncaught TypeError — modelled as `none` — and no filtering result is
produced; otherwise the kept articles are returned. -/
def filter_articles_by_keywords_py (articles : List Article)
    (keywords : List String) : Option (List Article) :=
  if keywords.isEmpty then some articles
  else if articles.any (fun a => a.title.isNone) then none
  else some (articles.filter (keywordHit (keywords.map lowerStr)))

/-! ## Fetchers

The HTTP exchange is abstracted: a provider response is `none` for a
non-200 status or a raised exception (both make the source return `[]`)
and `some items` for a parsed result list.  What the source does with the
response — per-item recency filtering, field extraction, date synthesis,
truncation to 5 — is modelled in full. -/

/-- A `news_results` item of the SerpAPI response. -/
structure SerpItem where
  title : Option String
  link : Option String
  snippet : Option String
  date : Option String
  source : Option String
deriving DecidableEq, Repr

/-- An `items` entry of the Google Custom Search response. -/
structure GoogleItem where
  title : Option String
  link : Option String
  snippet : Option String
  displayLink : Option String
deriving DecidableEq, Repr

/-- The query parameters `fetch_news_serpapi` sends (lines 67-77);
`num` is the requested result-count cap. -/
structure SerpParams where
  engine : String
  q : String
  api_key : String
  hl : String
  gl : String
  sort_by : String
  tbs : String
  num : Nat
deriving DecidableEq, Repr

/-- Line 67: `f"{query} ({' OR '.join(keywords)})" if keywords else query`
(an empty keyword list is falsy and leaves the query bare). -/
def serpQueryString (query : String) (keywords : Option (List String)) : String :=
  match keywords with
  | some kws => if kws.isEmpty then query
                else query ++ " (" ++ String.intercalate " OR " kws ++ ")"
  | none => query

/-- The `params` dict of `fetch_news_serpapi` (lines 68-77). -/
def serpParams (query api_key : String) (keywords : Option (List String)) :
    SerpParams :=
  { engine := "google_news", q := serpQueryString query keywords,
    api_key := api_key, hl := "en", gl := "us", sort_by := "date",
    tbs := "qdr:d", num := 100 }

/-- The query parameters `fetch_news_googleapi` sends (lines 102-107):
no result-count parameter at all. -/
structure GoogleParams where
  key : String
  cx : String
  q : String
  sort : String
deriving DecidableEq, Repr

/-- Line 101: `f"{query} {' '.join(keywords)}" if keywords else query`. -/
def googleQueryString (query : String) (keywords : Option (List String)) : String :=
  match keywords with
  | some kws => if kws.isEmpty then query
                else query ++ " " ++ String.intercalate " " kws
  | none => query

/-- The `params` dict of `fetch_news_googleapi` (lines 102-107). -/
def googleParams (google_api_key cse_id query : String)
    (keywords : Option (List String)) : GoogleParams :=
  { key := google_api_key, cx := cse_id,
    q := googleQueryString query keywords, sort := "date" }

/-- The comprehension guard of line 93:
`not i.get("date") or article_within_last_24_hours(i.get("date"))`.
A missing date (`None`) and the empty string are both falsy, so both
short-circuit to acceptance without parsing. -/
def serpItemKept (now : DT) (date : Option String) : Bool :=
  match date with
  | none => true
  | some s => s = "" || article_within_last_24_hours now s

/-- The article dict built for a kept SerpAPI item (lines 85-91). -/
def serpToArticle (i : SerpItem) : Article :=
  { title := i.title, link := i.link, snippet := i.snippet.getD "",
    pub_date := i.date, source := i.source }

/-- `fetch_news_serpapi` (lines 65-97) applied to a provider response:
on failure return `[]`; otherwise keep the items passing the recency
guard, build article dicts, and truncate to the first 5. -/
def fetch_news_serpapi (now : DT) (resp : Option (List SerpItem)) :
    List Article :=
  match resp with
  | none => []
  | some data =>
    (((data.filter fun i => serpItemKept now i.date).map serpToArticle).take 5)

/-- The article dict built for a Google item (lines 115-121): the publish
date is synthesized as `datetime.utcnow().strftime("%Y-%m-%dT%H:%M:%SZ")`
and the source from `displayLink`. -/
def googleToArticle (now : DT) (i : GoogleItem) : Article :=
  { title := i.title, link := i.link, snippet := i.snippet.getD "",
    pub_date := some (isoFormat now), source := some (i.displayLink.getD "") }

/-- `fetch_news_googleapi` (lines 99-126) applied to a provider response:
on failure return `[]`; otherwise build article dicts for every item (no
recency guard in the source) and truncate to the first 5. -/
def fetch_news_googleapi (now : DT) (resp : Option (List GoogleItem)) :
    List Article :=
  match resp with
  | none => []
  | some items => ((items.map (googleToArticle now)).take 5)

/-- Modelled from the spec: the recency filter of 4.3 as an article-level
predicate — "Missing/absent date string is treated permissively (article
passes)", and a present string is accepted iff some format parses it to
within 24 hours.  It differs from the guard the source applies
(`serpItemKept`) exactly on a present empty string, which parses under no
format: this predicate rejects it, the source's guard passes it. -/
def recencyKeep (now : DT) : Option String → Bool
  | none => true
  | some s => article_within_last_24_hours now s

/-- Modelled from the spec (refinement comparator for C5): "Both fetchers
independently apply the recency filter (4.3) before returning" — the
fallback fetcher with the 4.3 filter applied to each built article before
truncation. -/
def fetch_news_googleapi_recency (now : DT) (resp : Option (List GoogleItem)) :
    List Article :=
  match resp with
  | none => []
  | some items =>
    (((items.map (googleToArticle now)).filter
      fun a => recencyKeep now a.pub_date).take 5)

/-! ## Deduplicator and main run

`main` (lines 159-205) past its configuration guards.  The two fetchers
are supplied with the provider responses they would receive for a given
organization and keyword list (`serpResp` / `googResp` oracles);
determinism of a run is determinism of these functions.  The run carries
one `now`.  The `log` component is specification-only instrumentation: it
records, in processing order, exactly the `(org, article)` pairs appended
to `fresh_articles` by the accepting branch of lines 192-194; it feeds no
other component. -/

/-- The seen-set dict of `seen_articles.json` as loaded at line 178. -/
abbrev Seen := List (String × Jv)

/-- The dedup loop of lines 189-194 over the filtered article list:
accept an article into `fresh_articles` when `stored_hashes.get(h)` is
falsy, immediately setting `stored_hashes[h] = True`; skip it otherwise. -/
def dedupLoop (stored : Seen) : List Article → Seen × List Article
  | [] => (stored, [])
  | art :: rest =>
    let h := news_hash art
    if jvTruthyOpt (dictGet stored h) then dedupLoop stored rest
    else
      let p := dedupLoop (dictSet stored h (Jv.bool true)) rest
      (p.1, art :: p.2)

/-- Lines 182-187 for one organization: look up its keywords, fetch from
SerpAPI, fall back to Google on an empty list, then apply the keyword
filter when the keyword list is truthy. -/
def orgArticles (now : DT)
    (serpResp : String → Option (List String) → Option (List SerpItem))
    (googResp : String → Option (List String) → Option (List GoogleItem))
    (filters : List (String × List String)) (org : String) : List Article :=
  let keywords := dictGet filters org
  let articles := fetch_news_serpapi now (serpResp org keywords)
  let articles := if articles.isEmpty
                  then fetch_news_googleapi now (googResp org keywords)
                  else articles
  match keywords with
  | some kws => if kws.isEmpty then articles
                else filter_articles_by_keywords articles kws
  | none => articles

/-- State threaded through the organization loop of lines 181-197:
the seen-set accumulator, the `new_news` dict, and the ghost acceptance
log. -/
structure RunSt where
  stored : Seen
  digest : List (String × List Article)
  log : List (String × Article)
deriving DecidableEq, Repr

/-- The organization loop (lines 181-197): per organization, compute its
filtered articles, dedup them against the growing seen-set, and record a
`new_news` entry exactly when some article was fresh. -/
def runOrgs (now : DT)
    (serpResp : String → Option (List String) → Option (List SerpItem))
    (googResp : String → Option (List String) → Option (List GoogleItem))
    (filters : List (String × List String)) :
    List String → Seen → List (String × List Article) → RunSt
  | [], stored, digest => { stored := stored, digest := digest, log := [] }
  | org :: rest, stored, digest =>
    let arts := orgArticles now serpResp googResp filters org
    let p := dedupLoop stored arts
    let digest2 := if p.2.isEmpty then digest else dictSet digest org p.2
    let r := runOrgs now serpResp googResp filters rest p.1 digest2
    { stored := r.stored, digest := r.digest,
      log := p.2.map (fun a => (org, a)) ++ r.log }

/-- Outcome of one pipeline run. -/
structure RunOut where
  /-- The seen-set written back by `save_stored_hashes` (line 205). -/
  saved : Seen
  /-- The `new_news` digest (org → fresh articles). -/
  digest : List (String × List Article)
  /-- Ghost acceptance log. -/
  log : List (String × Article)
  /-- Whether line 201 attempted delivery (`if new_news:`). -/
  attempted : Bool
  /-- Whether delivery succeeded: attempted and SMTP did not raise
  (`send_email` swallows its exceptions, line 156). -/
  delivered : Bool
deriving DecidableEq, Repr

/-- Lines 178-205 of `main`, from the loaded seen-set to the saved one:
run the organization loop, attempt delivery exactly when the digest is
nonempty (`smtpOk` telling whether the SMTP exchange would succeed), and
unconditionally write the updated seen-set back. -/
def mainRun (now : DT)
    (serpResp : String → Option (List String) → Option (List SerpItem))
    (googResp : String → Option (List String) → Option (List GoogleItem))
    (filters : List (String × List String)) (orgs : List String)
    (stored0 : Seen) (smtpOk : Bool) : RunOut :=
  let r := runOrgs now serpResp googResp filters orgs stored0 []
  { saved := r.stored, digest := r.digest, log := r.log,
    attempted := !r.digest.isEmpty,
    delivered := !r.digest.isEmpty && smtpOk }

/-! ## Hash bookkeeping helpers -/

/-- Hashes of a list of articles. -/
def articleHashes (l : List Article) : List String := l.map news_hash

/-- Hashes of all articles of a digest, in digest order. -/
def allDigestHashes (d : List (String × List Article)) : List String :=
  (d.map fun p => articleHashes p.2).flatten

/-- Hashes of the articles of the ghost acceptance log. -/
def logHashes (lg : List (String × Article)) : List String :=
  lg.map fun p => news_hash p.2

/-! ## Dict lemmas -/

theorem dictGet_dictSet {α : Type} (d : List (String × α)) (k : String)
    (v : α) (key : String) :
    dictGet (dictSet d k v) key = if k = key then some v else dictGet d key := by
  induction d with
  | nil => simp [dictSet, dictGet]
  | cons p rest ih =>
    obtain ⟨pk, pv⟩ := p
    by_cases hpk : pk = k
    · subst hpk
      by_cases hkey : pk = key <;> simp [dictSet, dictGet, hkey]
    · simp only [dictSet, if_neg hpk]
      by_cases hkey : pk = key
      · subst hkey
        have hne : ¬ k = pk := fun h => hpk h.symm
        simp [dictGet, hne]
      · simp [dictGet, hkey, ih]

theorem allDigestHashes_nil : allDigestHashes [] = [] := rfl

theorem allDigestHashes_cons (pk : String) (pv : List Article)
    (rest : List (String × List Article)) :
    allDigestHashes ((pk, pv) :: rest) =
      articleHashes pv ++ allDigestHashes rest := by
  simp [allDigestHashes]

theorem allDigestHashes_dictSet_sub (d : List (String × List Article))
    (o : String) (v : List Article) (k : String)
    (hk : k ∈ allDigestHashes (dictSet d o v)) :
    k ∈ allDigestHashes d ∨ k ∈ articleHashes v := by
  induction d with
  | nil =>
    right
    rw [show dictSet ([] : List (String × List Article)) o v = [(o, v)] from rfl,
      allDigestHashes_cons] at hk
    simpa [allDigestHashes_nil] using hk
  | cons p rest ih =>
    obtain ⟨pk, pv⟩ := p
    by_cases hpk : pk = o
    · subst hpk
      rw [show dictSet ((pk, pv) :: rest) pk v = (pk, v) :: rest from by
          simp [dictSet], allDigestHashes_cons] at hk
      rcases List.mem_append.mp hk with h | h
      · right; exact h
      · left
        rw [allDigestHashes_cons]
        exact List.mem_append.mpr (Or.inr h)
    · rw [show dictSet ((pk, pv) :: rest) o v = (pk, pv) :: dictSet rest o v from by
          simp [dictSet, hpk], allDigestHashes_cons] at hk
      rcases List.mem_append.mp hk with h | h
      · left
        rw [allDigestHashes_cons]
        exact List.mem_append.mpr (Or.inl h)
      · rcases ih h with h2 | h2
        · left
          rw [allDigestHashes_cons]
          exact List.mem_append.mpr (Or.inr h2)
        · right; exact h2

theorem nodup_allDigestHashes_dictSet (d : List (String × List Article))
    (o : String) (v : List Article)
    (hd : (allDigestHashes d).Nodup) (hv : (articleHashes v).Nodup)
    (hdisj : ∀ x ∈ articleHashes v, x ∉ allDigestHashes d) :
    (allDigestHashes (dictSet d o v)).Nodup := by
  induction d with
  | nil =>
    rw [show dictSet ([] : List (String × List Article)) o v = [(o, v)] from rfl,
      allDigestHashes_cons]
    simpa [allDigestHashes_nil] using hv
  | cons p rest ih =>
    obtain ⟨pk, pv⟩ := p
    rw [allDigestHashes_cons] at hd hdisj
    rw [List.nodup_append] at hd
    obtain ⟨hd1, hd2, hd3⟩ := hd
    by_cases hpk : pk = o
    · subst hpk
      rw [show dictSet ((pk, pv) :: rest) pk v = (pk, v) :: rest from by
          simp [dictSet], allDigestHashes_cons, List.nodup_append]
      refine ⟨hv, hd2, ?_⟩
      intro x hx hy
      exact (hdisj x hx) (List.mem_append.mpr (Or.inr hy))
    · rw [show dictSet ((pk, pv) :: rest) o v = (pk, pv) :: dictSet rest o v from by
          simp [dictSet, hpk], allDigestHashes_cons, List.nodup_append]
      refine ⟨hd1, ih hd2 (fun x hx hmem =>
        (hdisj x hx) (List.mem_append.mpr (Or.inr hmem))), ?_⟩
      intro x hx hy
      rcases allDigestHashes_dictSet_sub rest o v x hy with h | h
      · exact hd3 hx h
      · exact (hdisj x h) (List.mem_append.mpr (Or.inl hx))

/-! ## Dedup-loop lemmas -/

/-- Unfolding equation for the accepting/skipping branches. -/
theorem dedupLoop_cons (s : Seen) (art : Article) (rest : List Article) :
    dedupLoop s (art :: rest) =
      if jvTruthyOpt (dictGet s (news_hash art)) then dedupLoop s rest
      else ((dedupLoop (dictSet s (news_hash art) (Jv.bool true)) rest).1,
            art :: (dedupLoop (dictSet s (news_hash art) (Jv.bool true)) rest).2) := by
  simp [dedupLoop]

/-- Truthiness of a seen-set entry survives the dedup loop. -/
theorem dedupLoop_mono (s : Seen) (L : List Article) (h : String)
    (hh : jvTruthyOpt (dictGet s h) = true) :
    jvTruthyOpt (dictGet (dedupLoop s L).1 h) = true := by
  induction L generalizing s with
  | nil => simpa [dedupLoop] using hh
  | cons a rest ih =>
    rw [dedupLoop_cons]
    by_cases ht : jvTruthyOpt (dictGet s (news_hash a)) = true
    · simp only [if_pos ht]
      exact ih s hh
    · simp only [if_neg ht]
      apply ih
      rw [dictGet_dictSet]
      by_cases he : news_hash a = h
      · simp [he, jvTruthyOpt, jvTruthy]
      · simpa [he] using hh

theorem articleHashes_cons (a : Article) (l : List Article) :
    articleHashes (a :: l) = news_hash a :: articleHashes l := rfl

/-- The seen-set after the loop: exactly the hashes of the freshly
accepted articles were set to `True`, everything else is untouched. -/
theorem dedupLoop_char (s : Seen) (L : List Article) (k : String) :
    dictGet (dedupLoop s L).1 k =
      if k ∈ articleHashes (dedupLoop s L).2 then some (Jv.bool true)
      else dictGet s k := by
  induction L generalizing s with
  | nil => simp [dedupLoop, articleHashes]
  | cons a rest ih =>
    rw [dedupLoop_cons]
    by_cases ht : jvTruthyOpt (dictGet s (news_hash a)) = true
    · simp only [if_pos ht]
      exact ih s
    · simp only [if_neg ht]
      have hrec := ih (dictSet s (news_hash a) (Jv.bool true))
      show dictGet (dedupLoop (dictSet s (news_hash a) (Jv.bool true)) rest).1 k = _
      rw [hrec, dictGet_dictSet, articleHashes_cons]
      by_cases hk : k ∈ articleHashes
          (dedupLoop (dictSet s (news_hash a) (Jv.bool true)) rest).2
      · rw [if_pos hk, if_pos (List.mem_cons_of_mem _ hk)]
      · rw [if_neg hk]
        by_cases he : news_hash a = k
        · rw [if_pos he, if_pos (he ▸ List.mem_cons_self _ _)]
        · rw [if_neg he, if_neg ?_]
          intro hmem
          rcases List.mem_cons.mp hmem with h | h
          · exact he h.symm
          · exact hk h

/-- Every processed article's hash is truthy after the loop. -/
theorem dedupLoop_all_truthy (s : Seen) (L : List Article) :
    ∀ a ∈ L, jvTruthyOpt (dictGet (dedupLoop s L).1 (news_hash a)) = true := by
  induction L generalizing s with
  | nil => intro a ha; cases ha
  | cons b rest ih =>
    intro a ha
    rw [dedupLoop_cons]
    by_cases ht : jvTruthyOpt (dictGet s (news_hash b)) = true
    · simp only [if_pos ht]
      rcases List.mem_cons.mp ha with h | h
      · subst h; exact dedupLoop_mono s rest _ ht
      · exact ih s a h
    · simp only [if_neg ht]
      rcases List.mem_cons.mp ha with h | h
      · subst h
        apply dedupLoop_mono
        rw [dictGet_dictSet]
        simp [jvTruthyOpt, jvTruthy]
      · exact ih _ a h

/-- A loop whose every input hash is already truthy accepts nothing and
leaves the seen-set unchanged. -/
theorem dedupLoop_stable (s : Seen) (L : List Article)
    (hall : ∀ a ∈ L, jvTruthyOpt (dictGet s (news_hash a)) = true) :
    dedupLoop s L = (s, []) := by
  induction L with
  | nil => simp [dedupLoop]
  | cons a rest ih =>
    rw [dedupLoop_cons, if_pos (hall a (List.mem_cons_self a rest))]
    exact ih (fun b hb => hall b (List.mem_cons_of_mem a hb))

/-- Accepted articles were unseen when the loop started, and their hashes
are pairwise distinct. -/
theorem dedupLoop_fresh (s : Seen) (L : List Article) :
    (∀ b ∈ (dedupLoop s L).2,
        jvTruthyOpt (dictGet s (news_hash b)) = false) ∧
    (articleHashes (dedupLoop s L).2).Nodup := by
  induction L generalizing s with
  | nil => simp [dedupLoop, articleHashes]
  | cons a rest ih =>
    rw [dedupLoop_cons]
    by_cases ht : jvTruthyOpt (dictGet s (news_hash a)) = true
    · simp only [if_pos ht]
      exact ih s
    · simp only [if_neg ht]
      obtain ⟨ihf, ihn⟩ := ih (dictSet s (news_hash a) (Jv.bool true))
      have hne : ∀ b ∈ (dedupLoop (dictSet s (news_hash a) (Jv.bool true)) rest).2,
          news_hash b ≠ news_hash a ∧
          jvTruthyOpt (dictGet s (news_hash b)) = false := by
        intro b hb
        have hf := ihf b hb
        rw [dictGet_dictSet] at hf
        by_cases he : news_hash a = news_hash b
        · rw [if_pos he] at hf
          simp [jvTruthyOpt, jvTruthy] at hf
        · rw [if_neg he] at hf
          exact ⟨fun h => he h.symm, hf⟩
      constructor
      · intro b hb
        rcases List.mem_cons.mp hb with h | h
        · subst h
          exact Bool.eq_false_iff.mpr ht
        · exact (hne b h).2
      · simp only [articleHashes, List.map_cons, List.nodup_cons]
        refine ⟨?_, ihn⟩
        intro hmem
        rcases List.mem_map.mp hmem with ⟨b, hb, hbe⟩
        exact (hne b hb).1 hbe

/-! ## Run-level lemmas -/

theorem logHashes_append (l1 l2 : List (String × Article)) :
    logHashes (l1 ++ l2) = logHashes l1 ++ logHashes l2 := by
  simp [logHashes]

theorem logHashes_tag (org : String) (l : List Article) :
    logHashes (l.map fun a => (org, a)) = articleHashes l := by
  simp [logHashes, articleHashes, List.map_map]

section RunLemmas

variable (now : DT)
variable (sr : String → Option (List String) → Option (List SerpItem))
variable (gr : String → Option (List String) → Option (List GoogleItem))
variable (fl : List (String × List String))

/-- Unfolding equation of the organization loop. -/
theorem runOrgs_cons (org : String) (rest : List String) (s : Seen)
    (d : List (String × List Article)) :
    runOrgs now sr gr fl (org :: rest) s d =
      { stored := (runOrgs now sr gr fl rest (dedupLoop s (orgArticles now sr gr fl org)).1
          (if (dedupLoop s (orgArticles now sr gr fl org)).2.isEmpty then d
           else dictSet d org (dedupLoop s (orgArticles now sr gr fl org)).2)).stored,
        digest := (runOrgs now sr gr fl rest (dedupLoop s (orgArticles now sr gr fl org)).1
          (if (dedupLoop s (orgArticles now sr gr fl org)).2.isEmpty then d
           else dictSet d org (dedupLoop s (orgArticles now sr gr fl org)).2)).digest,
        log := (dedupLoop s (orgArticles now sr gr fl org)).2.map (fun a => (org, a)) ++
          (runOrgs now sr gr fl rest (dedupLoop s (orgArticles now sr gr fl org)).1
            (if (dedupLoop s (orgArticles now sr gr fl org)).2.isEmpty then d
             else dictSet d org (dedupLoop s (orgArticles now sr gr fl org)).2)).log } := rfl

/-- Truthiness of a seen-set entry survives the whole run. -/
theorem runOrgs_mono (orgs : List String) (s : Seen)
    (d : List (String × List Article)) (h : String)
    (hh : jvTruthyOpt (dictGet s h) = true) :
    jvTruthyOpt (dictGet (runOrgs now sr gr fl orgs s d).stored h) = true := by
  induction orgs generalizing s d with
  | nil => simpa [runOrgs] using hh
  | cons org rest ih =>
    rw [runOrgs_cons]
    exact ih _ _ (dedupLoop_mono s _ h hh)

/-- The saved seen-set: exactly the hashes of the articles accepted during
the run (the ghost log) were set to `True`; every other key keeps its
loaded value. -/
theorem runOrgs_stored_char (orgs : List String) (s : Seen)
    (d : List (String × List Article)) (k : String) :
    dictGet (runOrgs now sr gr fl orgs s d).stored k =
      if k ∈ logHashes (runOrgs now sr gr fl orgs s d).log
      then some (Jv.bool true) else dictGet s k := by
  induction orgs generalizing s d with
  | nil => simp [runOrgs, logHashes]
  | cons org rest ih =>
    rw [runOrgs_cons]
    show dictGet (runOrgs now sr gr fl rest _ _).stored k = _
    rw [ih, logHashes_append, logHashes_tag, dedupLoop_char]
    by_cases h1 : k ∈ logHashes (runOrgs now sr gr fl rest
        (dedupLoop s (orgArticles now sr gr fl org)).1
        (if (dedupLoop s (orgArticles now sr gr fl org)).2.isEmpty then d
         else dictSet d org (dedupLoop s (orgArticles now sr gr fl org)).2)).log
    · rw [if_pos h1, if_pos (List.mem_append.mpr (Or.inr h1))]
    · rw [if_neg h1]
      by_cases h2 : k ∈ articleHashes (dedupLoop s (orgArticles now sr gr fl org)).2
      · rw [if_pos h2, if_pos (List.mem_append.mpr (Or.inl h2))]
      · rw [if_neg h2, if_neg ?_]
        intro hmem
        rcases List.mem_append.mp hmem with h | h
        · exact h2 h
        · exact h1 h

/-- After the run, every article the loop processed for any listed
organization has a truthy hash in the saved seen-set. -/
theorem runOrgs_all_truthy (orgs : List String) (s : Seen)
    (d : List (String × List Article)) :
    ∀ org ∈ orgs, ∀ a ∈ orgArticles now sr gr fl org,
      jvTruthyOpt (dictGet (runOrgs now sr gr fl orgs s d).stored (news_hash a)) = true := by
  induction orgs generalizing s d with
  | nil => intro org h; cases h
  | cons o rest ih =>
    intro org horg a ha
    rw [runOrgs_cons]
    rcases List.mem_cons.mp horg with h | h
    · subst h
      exact runOrgs_mono now sr gr fl rest _ _ _
        (dedupLoop_all_truthy s (orgArticles now sr gr fl org) a ha)
    · exact ih _ _ org h a ha

/-- A run whose every candidate article is already seen accepts nothing:
the seen-set, the digest and the log are unchanged. -/
theorem runOrgs_stable (orgs : List String) (s : Seen)
    (d : List (String × List Article))
    (hall : ∀ org ∈ orgs, ∀ a ∈ orgArticles now sr gr fl org,
      jvTruthyOpt (dictGet s (news_hash a)) = true) :
    runOrgs now sr gr fl orgs s d = ⟨s, d, []⟩ := by
  induction orgs with
  | nil => rfl
  | cons org rest ih =>
    rw [runOrgs_cons]
    have hstable : dedupLoop s (orgArticles now sr gr fl org) = (s, []) :=
      dedupLoop_stable s _ (hall org (List.mem_cons_self org rest))
    rw [hstable]
    have hrest := ih (fun o ho a ha => hall o (List.mem_cons_of_mem org ho) a ha)
    simp [hrest]

/-- The run only depends on the fetch oracles through the per-organization
candidate lists. -/
theorem runOrgs_congr (now2 : DT)
    (sr2 : String → Option (List String) → Option (List SerpItem))
    (gr2 : String → Option (List String) → Option (List GoogleItem))
    (fl2 : List (String × List String))
    (hsame : ∀ org, orgArticles now2 sr2 gr2 fl2 org = orgArticles now sr gr fl org)
    (orgs : List String) (s : Seen) (d : List (String × List Article)) :
    runOrgs now2 sr2 gr2 fl2 orgs s d = runOrgs now sr gr fl orgs s d := by
  induction orgs generalizing s d with
  | nil => rfl
  | cons org rest ih =>
    rw [runOrgs_cons now2 sr2 gr2 fl2, runOrgs_cons now sr gr fl, hsame org]
    simp only [ih]

/-- Digest values are never empty lists. -/
theorem runOrgs_digest_nonempty (orgs : List String) (s : Seen)
    (d : List (String × List Article))
    (hd : ∀ o l, dictGet d o = some l → l ≠ []) :
    ∀ o l, dictGet (runOrgs now sr gr fl orgs s d).digest o = some l → l ≠ [] := by
  induction orgs generalizing s d with
  | nil => exact hd
  | cons org rest ih =>
    rw [runOrgs_cons]
    show ∀ o l, dictGet (runOrgs now sr gr fl rest _ _).digest o = some l → l ≠ []
    apply ih
    by_cases hfr : (dedupLoop s (orgArticles now sr gr fl org)).2.isEmpty
    · rw [if_pos hfr]; exact hd
    · rw [if_neg hfr]
      intro o l hl
      rw [dictGet_dictSet] at hl
      by_cases ho : org = o
      · rw [if_pos ho] at hl
        cases hl
        exact fun h => hfr (by simp [h])
      · rw [if_neg ho] at hl
        exact hd o l hl

/-- An organization keys the digest iff it already keyed the incoming
digest or some article was accepted for it during the run. -/
theorem runOrgs_key_iff_log (orgs : List String) (s : Seen)
    (d : List (String × List Article)) (o : String) :
    (dictGet (runOrgs now sr gr fl orgs s d).digest o).isSome ↔
      ((dictGet d o).isSome ∨
        ∃ a, (o, a) ∈ (runOrgs now sr gr fl orgs s d).log) := by
  induction orgs generalizing s d with
  | nil => simp [runOrgs]
  | cons org rest ih =>
    rw [runOrgs_cons]
    by_cases hfr : (dedupLoop s (orgArticles now sr gr fl org)).2.isEmpty = true
    · rw [if_pos hfr]
      have hnil : (dedupLoop s (orgArticles now sr gr fl org)).2 = [] :=
        List.isEmpty_iff.mp hfr
      show (dictGet (runOrgs now sr gr fl rest _ d).digest o).isSome ↔ _
      rw [ih]
      rw [hnil]
      simp
    · rw [if_neg hfr]
      have hne : (dedupLoop s (orgArticles now sr gr fl org)).2 ≠ [] := by
        intro h
        exact hfr (by simp [h])
      show (dictGet (runOrgs now sr gr fl rest _ _).digest o).isSome ↔ _
      rw [ih]
      have hd2 : (dictGet (dictSet d org
          (dedupLoop s (orgArticles now sr gr fl org)).2) o).isSome ↔
          (org = o ∨ (dictGet d o).isSome) := by
        rw [dictGet_dictSet]
        by_cases h : org = o <;> simp [h]
      rw [hd2]
      constructor
      · rintro ((ho | hsome) | ⟨a, ha⟩)
        · right
          obtain ⟨b, hb⟩ := List.exists_mem_of_ne_nil _ hne
          subst ho
          exact ⟨b, List.mem_append.mpr (Or.inl (List.mem_map.mpr ⟨b, hb, rfl⟩))⟩
        · exact Or.inl hsome
        · exact Or.inr ⟨a, List.mem_append.mpr (Or.inr ha)⟩
      · rintro (hsome | ⟨a, ha⟩)
        · exact Or.inl (Or.inr hsome)
        · rcases List.mem_append.mp ha with h | h
          · rcases List.mem_map.mp h with ⟨b, hb, hbe⟩
            exact Or.inl (Or.inl (congrArg Prod.fst hbe))
          · exact Or.inr ⟨a, h⟩

/-- If every organization already keyed in the digest can contribute no
fresh article, then existing digest bindings survive the run verbatim and
every logged acceptance is present in the final digest. -/
theorem runOrgs_digest_faithful (orgs : List String) (s : Seen)
    (d : List (String × List Article))
    (h4 : ∀ o, (dictGet d o).isSome →
      ∀ a ∈ orgArticles now sr gr fl o,
        jvTruthyOpt (dictGet s (news_hash a)) = true) :
    (∀ o l, dictGet d o = some l →
      dictGet (runOrgs now sr gr fl orgs s d).digest o = some l) ∧
    (∀ pr ∈ (runOrgs now sr gr fl orgs s d).log,
      ∃ l, dictGet (runOrgs now sr gr fl orgs s d).digest pr.1 = some l ∧
        pr.2 ∈ l) := by
  induction orgs generalizing s d with
  | nil =>
    refine ⟨fun o l hl => hl, ?_⟩
    intro pr hpr
    cases hpr
  | cons org rest ih =>
    rw [runOrgs_cons]
    by_cases hkey : (dictGet d org).isSome
    · have hstable : dedupLoop s (orgArticles now sr gr fl org) = (s, []) :=
        dedupLoop_stable s _ (h4 org hkey)
      rw [hstable]
      simp only [List.isEmpty_nil, if_pos rfl, List.map_nil, List.nil_append]
      exact ih s d h4
    · by_cases hfr : (dedupLoop s (orgArticles now sr gr fl org)).2.isEmpty = true
      · rw [if_pos hfr]
        have hnil : (dedupLoop s (orgArticles now sr gr fl org)).2 = [] :=
          List.isEmpty_iff.mp hfr
        have h4p : ∀ o, (dictGet d o).isSome →
            ∀ a ∈ orgArticles now sr gr fl o,
              jvTruthyOpt (dictGet
                (dedupLoop s (orgArticles now sr gr fl org)).1 (news_hash a)) = true :=
          fun o ho a ha => dedupLoop_mono s _ _ (h4 o ho a ha)
        obtain ⟨p1, p2⟩ := ih _ d h4p
        refine ⟨p1, ?_⟩
        intro pr hpr
        rw [hnil] at hpr
        simp only [List.map_nil, List.nil_append] at hpr
        exact p2 pr hpr
      · rw [if_neg hfr]
        have h4p : ∀ o, (dictGet (dictSet d org
            (dedupLoop s (orgArticles now sr gr fl org)).2) o).isSome →
            ∀ a ∈ orgArticles now sr gr fl o,
              jvTruthyOpt (dictGet
                (dedupLoop s (orgArticles now sr gr fl org)).1 (news_hash a)) = true := by
          intro o ho a ha
          rw [dictGet_dictSet] at ho
          by_cases he : org = o
          · subst he
            exact dedupLoop_all_truthy s _ a ha
          · rw [if_neg he] at ho
            exact dedupLoop_mono s _ _ (h4 o ho a ha)
        obtain ⟨p1, p2⟩ := ih _ _ h4p
        constructor
        · intro o l hl
          have hno : ¬ org = o := by
            intro he
            exact hkey (he ▸ (hl ▸ Option.isSome_some))
          exact p1 o l (by rw [dictGet_dictSet, if_neg hno]; exact hl)
        · intro pr hpr
          rcases List.mem_append.mp hpr with h | h
          · rcases List.mem_map.mp h with ⟨b, hb, hbe⟩
            have hset : dictGet (dictSet d org
                (dedupLoop s (orgArticles now sr gr fl org)).2) org =
                some (dedupLoop s (orgArticles now sr gr fl org)).2 := by
              rw [dictGet_dictSet, if_pos rfl]
            have := p1 org _ hset
            subst hbe
            exact ⟨_, this, hb⟩
          · exact p2 pr h

/-- No two articles anywhere in the digest share a hash, and every digest
article's hash is truthy in the saved seen-set. -/
theorem runOrgs_digest_nodup (orgs : List String) (s : Seen)
    (d : List (String × List Article))
    (h1 : ∀ h ∈ allDigestHashes d, jvTruthyOpt (dictGet s h) = true)
    (h2 : (allDigestHashes d).Nodup) :
    (allDigestHashes (runOrgs now sr gr fl orgs s d).digest).Nodup ∧
    (∀ h ∈ allDigestHashes (runOrgs now sr gr fl orgs s d).digest,
      jvTruthyOpt (dictGet (runOrgs now sr gr fl orgs s d).stored h) = true) := by
  induction orgs generalizing s d with
  | nil => exact ⟨h2, h1⟩
  | cons org rest ih =>
    rw [runOrgs_cons]
    by_cases hfr : (dedupLoop s (orgArticles now sr gr fl org)).2.isEmpty = true
    · rw [if_pos hfr]
      exact ih _ d (fun h hh => dedupLoop_mono s _ h (h1 h hh)) h2
    · rw [if_neg hfr]
      obtain ⟨hunseen, hnodup⟩ := dedupLoop_fresh s (orgArticles now sr gr fl org)
      have hdisj : ∀ x ∈ articleHashes (dedupLoop s (orgArticles now sr gr fl org)).2,
          x ∉ allDigestHashes d := by
        intro x hx hmem
        rcases List.mem_map.mp hx with ⟨b, hb, hbe⟩
        have := hunseen b hb
        rw [hbe] at this
        rw [h1 x hmem] at this
        cases this
      have h2p : (allDigestHashes (dictSet d org
          (dedupLoop s (orgArticles now sr gr fl org)).2)).Nodup :=
        nodup_allDigestHashes_dictSet d org _ h2 hnodup hdisj
      have h1p : ∀ h ∈ allDigestHashes (dictSet d org
          (dedupLoop s (orgArticles now sr gr fl org)).2),
          jvTruthyOpt (dictGet
            (dedupLoop s (orgArticles now sr gr fl org)).1 h) = true := by
        intro h hh
        rcases allDigestHashes_dictSet_sub d org _ h hh with hmem | hmem
        · exact dedupLoop_mono s _ h (h1 h hmem)
        · rw [dedupLoop_char, if_pos hmem]
          rfl
      exact ih _ _ h1p h2p

/-- A hash of an article reachable through a digest binding is among the
digest's hashes. -/
theorem mem_allDigestHashes_of_get (d : List (String × List Article))
    (o : String) (l : List Article) (a : Article)
    (hget : dictGet d o = some l) (ha : a ∈ l) :
    news_hash a ∈ allDigestHashes d := by
  induction d with
  | nil => cases hget
  | cons p rest ih =>
    obtain ⟨pk, pv⟩ := p
    rw [allDigestHashes_cons]
    by_cases hk : pk = o
    · rw [show dictGet ((pk, pv) :: rest) o = some pv from by
        simp [dictGet, hk]] at hget
      cases hget
      exact List.mem_append.mpr (Or.inl (List.mem_map.mpr ⟨a, ha, rfl⟩))
    · rw [show dictGet ((pk, pv) :: rest) o = dictGet rest o from by
        simp [dictGet, hk]] at hget
      exact List.mem_append.mpr (Or.inr (ih hget))

/-- Every digest hash after the run is an incoming digest hash or a logged
acceptance. -/
theorem runOrgs_digest_hashes_sub (now : DT)
    (sr : String → Option (List String) → Option (List SerpItem))
    (gr : String → Option (List String) → Option (List GoogleItem))
    (fl : List (String × List String))
    (orgs : List String) (s : Seen) (d : List (String × List Article))
    (k : String)
    (hk : k ∈ allDigestHashes (runOrgs now sr gr fl orgs s d).digest) :
    k ∈ allDigestHashes d ∨ k ∈ logHashes (runOrgs now sr gr fl orgs s d).log := by
  induction orgs generalizing s d with
  | nil => exact Or.inl hk
  | cons org rest ih =>
    rw [runOrgs_cons] at hk ⊢
    by_cases hfr : (dedupLoop s (orgArticles now sr gr fl org)).2.isEmpty = true
    · rw [if_pos hfr] at hk ⊢
      rcases ih _ _ hk with h | h
      · exact Or.inl h
      · right
        rw [logHashes_append]
        exact List.mem_append.mpr (Or.inr h)
    · rw [if_neg hfr] at hk ⊢
      rcases ih _ _ hk with h | h
      · rcases allDigestHashes_dictSet_sub d org _ k h with h2 | h2
        · exact Or.inl h2
        · right
          rw [logHashes_append, logHashes_tag]
          exact List.mem_append.mpr (Or.inl h2)
      · right
        rw [logHashes_append]
        exact List.mem_append.mpr (Or.inr h)

end RunLemmas

/-! ## Roundtrip: parsing back a synthesized ISO timestamp -/

theorem lowerChar_digitChar (n : Nat) : lowerChar (digitChar n) = digitChar n := by
  unfold digitChar
  split <;> decide

theorem isDig_digitChar (n : Nat) : isDig (digitChar n) = true := by
  unfold digitChar
  split <;> decide

theorem digVal_digitChar (n : Nat) (h : n < 10) : digVal (digitChar n) = n := by
  interval_cases n <;> decide

theorem map_lower_pad2 (n : Nat) : (pad2 n).map lowerChar = pad2 n := by
  unfold pad2
  split <;>
    simp [lowerChar_digitChar, show lowerChar '0' = '0' from by decide]

theorem map_lower_pad4 (n : Nat) : (pad4 n).map lowerChar = pad4 n := by
  unfold pad4
  simp [lowerChar_digitChar]

theorem pad2_digits (n : Nat) : ∀ c ∈ pad2 n, isDig c = true := by
  intro c hc
  unfold pad2 at hc
  split at hc <;> simp only [List.mem_cons, List.not_mem_nil, or_false] at hc <;>
    rcases hc with rfl | rfl <;> first | decide | exact isDig_digitChar _

theorem pad4_digits (n : Nat) : ∀ c ∈ pad4 n, isDig c = true := by
  intro c hc
  unfold pad4 at hc
  simp only [List.mem_cons, List.not_mem_nil, or_false] at hc
  rcases hc with rfl | rfl | rfl | rfl <;> exact isDig_digitChar _

theorem optBind_some {α β : Type} (a : α) (f : α → Option β) :
    (Option.some a).bind f = f a := rfl

theorem pad2_length (n : Nat) : (pad2 n).length = 2 := by
  unfold pad2
  split <;> rfl

theorem pad4_length (n : Nat) : (pad4 n).length = 4 := rfl

theorem readNum_pad2 (n : Nat) (h : n < 100) : readNum (pad2 n) = n := by
  unfold pad2
  split
  · simp [readNum, digVal_digitChar n (by omega), show digVal '0' = 0 from by decide]
  · have h1 : n / 10 < 10 := by omega
    have h2 : n % 10 < 10 := by omega
    simp [readNum, digVal_digitChar _ h1, digVal_digitChar _ h2]
    omega

theorem readNum_pad4 (y : Nat) (h : y ≤ 9999) : readNum (pad4 y) = y := by
  unfold pad4
  have h1 : y / 1000 % 10 < 10 := by omega
  have h2 : y / 100 % 10 < 10 := by omega
  have h3 : y / 10 % 10 < 10 := by omega
  have h4 : y % 10 < 10 := by omega
  simp [readNum, digVal_digitChar _ h1, digVal_digitChar _ h2,
    digVal_digitChar _ h3, digVal_digitChar _ h4]
  omega

theorem takeDigits_append (ds : List Char) (c : Char) (r : List Char)
    (hds : ∀ x ∈ ds, isDig x = true) (hc : isDig c = false) :
    takeDigits (ds ++ c :: r) = (ds, c :: r) := by
  induction ds with
  | nil => simp [takeDigits, hc]
  | cons x xs ih =>
    have hx : isDig x = true := hds x (List.mem_cons_self x xs)
    simp [takeDigits, hx, ih (fun y hy => hds y (List.mem_cons_of_mem x hy))]

theorem readNum12_pad2 (n : Nat) (hn : n < 100) (c : Char) (r : List Char)
    (hc : isDig c = false) :
    readNum12 (pad2 n ++ c :: r) = some (n, c :: r) := by
  unfold readNum12
  rw [takeDigits_append _ _ _ (pad2_digits n) hc]
  simp [pad2_length, readNum_pad2 n hn]

theorem readNum4_pad4 (y : Nat) (hy : y ≤ 9999) (c : Char) (r : List Char)
    (hc : isDig c = false) :
    readNum4 (pad4 y ++ c :: r) = some (y, c :: r) := by
  unfold readNum4
  rw [takeDigits_append _ _ _ (pad4_digits y) hc]
  simp [pad4_length, readNum_pad4 y hy]

theorem lowerData_isoFormat (dt : DT) :
    lowerData (isoFormat dt) =
      pad4 dt.year ++ ('-' :: (pad2 dt.month ++ ('-' :: (pad2 dt.day ++
      ('t' :: (pad2 dt.hour ++ (':' :: (pad2 dt.minute ++ (':' ::
      (pad2 dt.second ++ ['z'])))))))))) := by
  show (isoChars dt).map lowerChar = _
  unfold isoChars
  simp only [List.map_append, List.map_cons, List.map_nil,
    map_lower_pad2, map_lower_pad4, List.cons_append, List.append_assoc,
    show lowerChar '-' = '-' from by decide,
    show lowerChar ':' = ':' from by decide,
    show lowerChar 'T' = 't' from by decide,
    show lowerChar 'Z' = 'z' from by decide]

theorem litChar_cons (c : Char) (r : List Char) : litChar c (c :: r) = some r := by
  simp [litChar]

/-- Parsing a synthesized `strftime("%Y-%m-%dT%H:%M:%SZ")` string under the
first format recovers the datetime. -/
theorem parseISO_isoFormat (dt : DT) (hv : ValidDT dt) :
    parseISO (lowerData (isoFormat dt)) = some dt := by
  obtain ⟨h1, h2, h3, h4, h5, h6, h7, h8, h9⟩ := hv
  have h31 : daysInMonth dt.year dt.month ≤ 31 := by
    unfold daysInMonth
    split
    · split <;> omega
    · split <;> omega
  rw [lowerData_isoFormat]
  unfold parseISO
  rw [readNum4_pad4 dt.year h2 '-' _ (by decide)]
  simp only [optBind_some]
  rw [litChar_cons]
  simp only [optBind_some]
  rw [readNum12_pad2 dt.month (by omega) '-' _ (by decide)]
  simp only [optBind_some]
  rw [litChar_cons]
  simp only [optBind_some]
  rw [readNum12_pad2 dt.day (by omega) 't' _ (by decide)]
  simp only [optBind_some]
  rw [litChar_cons]
  simp only [optBind_some]
  rw [readNum12_pad2 dt.hour (by omega) ':' _ (by decide)]
  simp only [optBind_some]
  rw [litChar_cons]
  simp only [optBind_some]
  rw [readNum12_pad2 dt.minute (by omega) ':' _ (by decide)]
  simp only [optBind_some]
  rw [litChar_cons]
  simp only [optBind_some]
  rw [show (['z'] : List Char) = 'z' :: [] from rfl,
    readNum12_pad2 dt.second (by omega) 'z' [] (by decide)]
  simp only [optBind_some]
  rw [litChar_cons]
  simp only [optBind_some]
  simp only [List.isEmpty_nil, if_true]
  unfold mkDT
  rw [if_pos ⟨h1, h3, h4, h5, h6, h7, h8, h9⟩]

/-- The synthesized Google publish date parses under the first format. -/
theorem tryFormats_isoFormat (dt : DT) (hv : ValidDT dt) :
    tryFormats (isoFormat dt) = some dt := by
  simp only [tryFormats]
  rw [parseISO_isoFormat dt hv]
  rfl

/-- A freshly synthesized publish date always passes the recency check at
the time of synthesis. -/
theorem within_isoFormat (now : DT) (hv : ValidDT now) :
    article_within_last_24_hours now (isoFormat now) = true := by
  unfold article_within_last_24_hours
  rw [tryFormats_isoFormat now hv]
  simp

/-- The recency check accepts exactly the strings whose first successful
format parse is at most 24 hours before `now`. -/
theorem within_iff (now : DT) (s : String) :
    article_within_last_24_hours now s = true ↔
      ∃ t, tryFormats s = some t ∧
        (dtSecs now : Int) - dtSecs t ≤ 86400 := by
  unfold article_within_last_24_hours
  cases htf : tryFormats s with
  | none => simp
  | some t => simp [htf]

/-! ## Claim theorems -/

/-- C1: the deduplicator accepts a filtered candidate article exactly when
its hash is not marked present (truthy) in the in-memory seen-set — the
seen-set being the set of truthy-marked hashes of the marker dict, the
reading under which "mark the hash present" (line 194, `= True`) and
"present in the seen-set" (line 192, `stored_hashes.get(h)`) match — and
acceptance immediately marks the hash present; hence of two same-hash
articles processed in one run from a seen-set not containing the hash,
exactly the first is accepted, and a run's digest never holds two articles
with the same hash. -/
theorem C1_dedup_accept_iff_unseen :
    (∀ (s : Seen) (a : Article) (l : List Article),
      jvTruthyOpt (dictGet s (news_hash a)) = false →
        dedupLoop s (a :: l) =
          ((dedupLoop (dictSet s (news_hash a) (Jv.bool true)) l).1,
           a :: (dedupLoop (dictSet s (news_hash a) (Jv.bool true)) l).2)) ∧
    (∀ (s : Seen) (a : Article) (l : List Article),
      jvTruthyOpt (dictGet s (news_hash a)) = true →
        dedupLoop s (a :: l) = dedupLoop s l) ∧
    (∀ (s : Seen) (a : Article),
      jvTruthyOpt (dictGet (dictSet s (news_hash a) (Jv.bool true))
        (news_hash a)) = true) ∧
    (∀ (s : Seen) (a b : Article), news_hash a = news_hash b →
      jvTruthyOpt (dictGet s (news_hash a)) = false →
        dedupLoop s [a, b] = (dictSet s (news_hash a) (Jv.bool true), [a])) ∧
    (∀ (now : DT) (sr : String → Option (List String) → Option (List SerpItem))
      (gr : String → Option (List String) → Option (List GoogleItem))
      (fl : List (String × List String)) (orgs : List String) (s0 : Seen)
      (ok : Bool),
      (allDigestHashes (mainRun now sr gr fl orgs s0 ok).digest).Nodup) := by
  refine ⟨?_, ?_, ?_, ?_, ?_⟩
  · intro s a l hfalse
    rw [dedupLoop_cons, if_neg (by rw [hfalse]; exact Bool.false_ne_true)]
  · intro s a l htrue
    rw [dedupLoop_cons, if_pos htrue]
  · intro s a
    rw [dictGet_dictSet, if_pos rfl]
    rfl
  · intro s a b hab hfalse
    rw [dedupLoop_cons, if_neg (by rw [hfalse]; exact Bool.false_ne_true)]
    have hb : jvTruthyOpt (dictGet (dictSet s (news_hash a) (Jv.bool true))
        (news_hash b)) = true := by
      rw [← hab, dictGet_dictSet, if_pos rfl]
      rfl
    rw [dedupLoop_stable _ _ (by intro x hx; rw [List.mem_singleton.mp hx]; exact hb)]
  · intro now sr gr fl orgs s0 ok
    exact (runOrgs_digest_nodup now sr gr fl orgs s0 []
      (by intro h hh; cases hh) List.nodup_nil).1

/-- Witness for C1 at concrete inputs: two articles sharing title and link
(so sharing a hash), processed from an empty seen-set. -/
theorem C1_witness :
    jvTruthyOpt (dictGet ([] : Seen)
      (news_hash ⟨some "t1", some "l1", "", none, none⟩)) = false ∧
    dedupLoop ([] : Seen)
      [⟨some "t1", some "l1", "", none, none⟩,
       ⟨some "t1", some "l1", "other snippet", none, none⟩] =
      (dictSet ([] : Seen)
        (news_hash ⟨some "t1", some "l1", "", none, none⟩) (Jv.bool true),
       [⟨some "t1", some "l1", "", none, none⟩]) :=
  ⟨rfl, C1_dedup_accept_iff_unseen.2.2.2.1 [] _ _ rfl rfl⟩

/-- C2: two runs in immediate succession with no seen-set reset, the
second seeing the seen-set the first saved; if the fetch pipeline yields
the same candidate articles per organization in both runs, the second
run's digest is empty and no delivery is attempted. -/
theorem C2_second_run_empty
    (now1 now2 : DT)
    (sr1 sr2 : String → Option (List String) → Option (List SerpItem))
    (gr1 gr2 : String → Option (List String) → Option (List GoogleItem))
    (fl : List (String × List String)) (orgs : List String) (s0 : Seen)
    (ok1 ok2 : Bool)
    (hsame : ∀ org, orgArticles now2 sr2 gr2 fl org =
      orgArticles now1 sr1 gr1 fl org) :
    (mainRun now2 sr2 gr2 fl orgs
      (mainRun now1 sr1 gr1 fl orgs s0 ok1).saved ok2).digest = [] ∧
    (mainRun now2 sr2 gr2 fl orgs
      (mainRun now1 sr1 gr1 fl orgs s0 ok1).saved ok2).attempted = false := by
  have hrun2 : runOrgs now2 sr2 gr2 fl orgs
      (runOrgs now1 sr1 gr1 fl orgs s0 []).stored [] =
      ⟨(runOrgs now1 sr1 gr1 fl orgs s0 []).stored, [], []⟩ := by
    rw [runOrgs_congr now1 sr1 gr1 fl now2 sr2 gr2 fl hsame]
    exact runOrgs_stable now1 sr1 gr1 fl orgs _ []
      (fun org ho a ha => runOrgs_all_truthy now1 sr1 gr1 fl orgs s0 [] org ho a ha)
  show (runOrgs now2 sr2 gr2 fl orgs
      (runOrgs now1 sr1 gr1 fl orgs s0 []).stored []).digest = [] ∧
    (!(runOrgs now2 sr2 gr2 fl orgs
      (runOrgs now1 sr1 gr1 fl orgs s0 []).stored []).digest.isEmpty) = false
  rw [hrun2]
  exact ⟨rfl, rfl⟩

/-- Witness for C2 at concrete inputs: identical oracles in both runs. -/
theorem C2_witness :
    (mainRun ⟨2024, 1, 1, 0, 0, 0⟩ (fun _ _ => none) (fun _ _ => none) []
      ["Acme"]
      (mainRun ⟨2024, 1, 1, 0, 0, 0⟩ (fun _ _ => none) (fun _ _ => none) []
        ["Acme"] [] true).saved true).digest = [] :=
  (C2_second_run_empty ⟨2024, 1, 1, 0, 0, 0⟩ ⟨2024, 1, 1, 0, 0, 0⟩
    (fun _ _ => none) (fun _ _ => none) (fun _ _ => none) (fun _ _ => none)
    [] ["Acme"] [] true true (fun _ => rfl)).1

/-- C7: the identity hash is the SHA-256 hex digest of title ++ link with
the empty string replacing an absent (or falsy) title or link; it depends
on no other field, so identical (title, link) pairs always collide. -/
theorem C7_hash_title_link_only :
    (∀ a : Article, news_hash a = sha256hex (a.title.getD "" ++ a.link.getD "")) ∧
    (∀ a b : Article, a.title = b.title → a.link = b.link →
      news_hash a = news_hash b) ∧
    (∀ (t l : Option String) (s1 s2 : String) (d1 d2 so1 so2 : Option String),
      news_hash ⟨t, l, s1, d1, so1⟩ = news_hash ⟨t, l, s2, d2, so2⟩) := by
  refine ⟨fun a => rfl, ?_, fun t l s1 s2 d1 d2 so1 so2 => rfl⟩
  intro a b ht hl
  show sha256hex (a.title.getD "" ++ a.link.getD "") =
    sha256hex (b.title.getD "" ++ b.link.getD "")
  rw [ht, hl]

/-- Witness for C7: two articles differing only in snippet, date and
source hash identically. -/
theorem C7_witness :
    news_hash ⟨some "t", some "l", "s1", some "d1", some "x"⟩ =
      news_hash ⟨some "t", some "l", "s2", none, none⟩ :=
  C7_hash_title_link_only.2.1 _ _ rfl rfl

/-- C10: a seen-set entry with a falsy marker (False, 0, null, "") does
not count as seen: the article is accepted and the marker is overwritten
with `True`. -/
theorem C10_falsy_marker_unseen (s : Seen) (a : Article) (v : Jv)
    (hget : dictGet s (news_hash a) = some v) (hfalsy : jvTruthy v = false) :
    dedupLoop s [a] = (dictSet s (news_hash a) (Jv.bool true), [a]) ∧
    dictGet (dictSet s (news_hash a) (Jv.bool true)) (news_hash a) =
      some (Jv.bool true) := by
  constructor
  · rw [dedupLoop_cons, if_neg (by
      rw [show jvTruthyOpt (dictGet s (news_hash a)) = jvTruthy v from by
        rw [hget]; rfl, hfalsy]
      exact Bool.false_ne_true)]
    rfl
  · rw [dictGet_dictSet, if_pos rfl]

/-- Witness for C10: a loaded seen-set mapping the article's hash to the
falsy marker `0`. -/
theorem C10_witness :
    dedupLoop [(news_hash ⟨some "t1", some "l1", "", none, none⟩, Jv.num 0)]
      [⟨some "t1", some "l1", "", none, none⟩] =
      (dictSet [(news_hash ⟨some "t1", some "l1", "", none, none⟩, Jv.num 0)]
        (news_hash ⟨some "t1", some "l1", "", none, none⟩) (Jv.bool true),
       [⟨some "t1", some "l1", "", none, none⟩]) :=
  (C10_falsy_marker_unseen _ _ (Jv.num 0) (by rw [dictGet]; rw [if_pos rfl]) rfl).1

/-- C3 counterexample: the claim says a present publish-date string is
accepted only if it parses under some format, but the present empty
string parses under no format and is still accepted — `i.get("date")`
is falsy for `""`, short-circuiting the guard of line 93. -/
theorem C3_counterexample :
    serpItemKept ⟨2024, 1, 1, 0, 0, 0⟩ (some "") = true ∧
    tryFormats "" = none :=
  ⟨rfl, rfl⟩

/-- C3 amended: an absent or empty (falsy) date string is accepted
without parsing; a present nonempty string is accepted iff its first
successful format parse (formats tried in the fixed order of lines 44-49,
parsed value treated as UTC) is at most 24 hours before the current UTC
time; a nonempty string parsing under no format is rejected. -/
theorem C3_recency_policy_amended :
    (∀ (now : DT) (s : String),
      article_within_last_24_hours now s = true ↔
        ∃ t, tryFormats s = some t ∧
          (dtSecs now : Int) - dtSecs t ≤ 86400) ∧
    (∀ (now : DT) (s : String), tryFormats s = none →
      article_within_last_24_hours now s = false) ∧
    (∀ (now : DT) (dopt : Option String),
      serpItemKept now dopt = true ↔
        (dopt = none ∨ dopt = some "" ∨
          ∃ s, dopt = some s ∧ article_within_last_24_hours now s = true)) := by
  refine ⟨within_iff, ?_, ?_⟩
  · intro now s hnone
    unfold article_within_last_24_hours
    rw [hnone]
  · intro now dopt
    cases dopt with
    | none => simp [serpItemKept]
    | some s =>
      by_cases hs : s = ""
      · subst hs
        simp [serpItemKept]
      · simp only [serpItemKept, Option.some.injEq]
        constructor
        · intro h
          rcases Bool.or_eq_true_iff.mp h with h2 | h2
          · exact absurd (by simpa using h2) hs
          · exact Or.inr (Or.inr ⟨s, rfl, h2⟩)
        · rintro (h | h | ⟨s2, hs2, hw⟩)
          · cases h
          · exact absurd (Option.some.injEq _ _ ▸ h) hs
          · cases hs2
            exact Bool.or_eq_true_iff.mpr (Or.inr hw)

/-- Witness for the amended C3: an unparseable nonempty string is
rejected; an absent date is accepted. -/
theorem C3_amended_witness :
    article_within_last_24_hours ⟨2024, 1, 1, 0, 0, 0⟩ "garbage" = false ∧
    serpItemKept ⟨2024, 1, 1, 0, 0, 0⟩ none = true :=
  ⟨C3_recency_policy_amended.2.1 ⟨2024, 1, 1, 0, 0, 0⟩ "garbage" rfl,
   (C3_recency_policy_amended.2.2 ⟨2024, 1, 1, 0, 0, 0⟩ none).mpr (Or.inl rfl)⟩

/-- C4 counterexample: the primary fetcher requests `num = 100` results
(line 76), not a cap of 10 as claimed. -/
theorem C4_counterexample :
    (serpParams "Acme" "KEY" none).num = 100 ∧ (100 : Nat) ≠ 10 :=
  ⟨rfl, by decide⟩

/-- C4 amended: the primary fetcher requests up to 100 results
(`num: 100`); the fallback sends no result-count parameter at all (its
params are exactly key, cx, q, sort); each fetcher returns at most 5
articles (`[:5]`). -/
theorem C4_request_and_result_caps :
    (∀ (q k : String) (kw : Option (List String)),
      (serpParams q k kw).num = 100) ∧
    (∀ (gk cx q : String) (kw : Option (List String)),
      googleParams gk cx q kw =
        { key := gk, cx := cx, q := googleQueryString q kw, sort := "date" }) ∧
    (∀ (now : DT) (resp : Option (List SerpItem)),
      (fetch_news_serpapi now resp).length ≤ 5) ∧
    (∀ (now : DT) (resp : Option (List GoogleItem)),
      (fetch_news_googleapi now resp).length ≤ 5) := by
  refine ⟨fun q k kw => rfl, fun gk cx q kw => rfl, ?_, ?_⟩
  · intro now resp
    cases resp with
    | none => simp [fetch_news_serpapi]
    | some data =>
      simp only [fetch_news_serpapi, List.length_take]
      omega
  · intro now resp
    cases resp with
    | none => simp [fetch_news_googleapi]
    | some items =>
      simp only [fetch_news_googleapi, List.length_take]
      omega

/-- C6 counterexample: the claim's acceptance condition — a keyword
occurring in the plain concatenation of title and snippet — holds for
keyword "bc", title "ab", snippet "cd", yet the filter rejects the
article: the source matches against title + ' ' + snippet (line 63),
whose space breaks the boundary-straddling match. -/
theorem C6_counterexample :
    containsSub (lowerData "bc") (lowerData ("ab" ++ "cd")) = true ∧
    filter_articles_by_keywords_py
      [⟨some "ab", some "l", "cd", none, none⟩] ["bc"] = some [] := by
  constructor
  · decide
  · decide

/-- C6 amended: with an empty (or, at the call site, absent) keyword list
every article passes untouched; with a nonempty list, if any candidate
article's title slot holds `None`, line 63 raises an uncaught TypeError
and no filtering result is produced; otherwise an article passes iff some
keyword occurs case-insensitively in title ++ " " ++ snippet (the source
joins them with a space).  On title-carrying inputs the crash-explicit
embedding agrees with the total one the pipeline model uses, and the
claim's two Acme examples hold unchanged. -/
theorem C6_keyword_filter_amended :
    (∀ arts, filter_articles_by_keywords_py arts [] = some arts) ∧
    (∀ arts (kws : List String), kws ≠ [] → (∃ a ∈ arts, a.title = none) →
      filter_articles_by_keywords_py arts kws = none) ∧
    (∀ arts (kws : List String) (a : Article) (l : List Article), kws ≠ [] →
      filter_articles_by_keywords_py arts kws = some l →
      (a ∈ l ↔ a ∈ arts ∧ (kws.map lowerStr).any (fun kw =>
        containsSub kw.data
          (lowerData (a.title.getD "" ++ " " ++ a.snippet))) = true)) ∧
    (∀ arts (kws : List String), (∀ b ∈ arts, b.title ≠ none) →
      filter_articles_by_keywords_py arts kws =
        some (filter_articles_by_keywords arts kws)) ∧
    filter_articles_by_keywords_py
      [⟨some "Acme announces merger", none, "", none, none⟩]
      ["layoffs", "merger"] =
      some [⟨some "Acme announces merger", none, "", none, none⟩] ∧
    filter_articles_by_keywords_py
      [⟨some "Acme opens new office", none, "", none, none⟩]
      ["layoffs", "merger"] = some [] := by
  refine ⟨fun arts => rfl, ?_, ?_, ?_, by decide, by decide⟩
  · intro arts kws hne hcrash
    unfold filter_articles_by_keywords_py
    rw [if_neg (by simpa [List.isEmpty_iff] using hne), if_pos ?_]
    rcases hcrash with ⟨a, ha, htitle⟩
    exact List.any_eq_true.mpr ⟨a, ha, by rw [htitle]; rfl⟩
  · intro arts kws a l hne hsome
    unfold filter_articles_by_keywords_py at hsome
    rw [if_neg (by simpa [List.isEmpty_iff] using hne)] at hsome
    by_cases hcr : arts.any (fun b => b.title.isNone) = true
    · rw [if_pos hcr] at hsome
      cases hsome
    · rw [if_neg hcr] at hsome
      injection hsome with hl
      subst hl
      rw [List.mem_filter]
      unfold keywordHit
      exact Iff.rfl
  · intro arts kws hsafe
    unfold filter_articles_by_keywords_py filter_articles_by_keywords
    by_cases hk : kws.isEmpty = true
    · rw [if_pos hk, if_pos hk]
    · rw [if_neg hk, if_neg hk, if_neg ?_]
      intro hany
      rcases List.any_eq_true.mp hany with ⟨b, hb, hbn⟩
      exact hsafe b hb (Option.isNone_iff_eq_none.mp hbn)

/-- Witness for the amended C6: a None-title article crashes the filter;
a concrete title-carrying article passes it. -/
theorem C6_amended_witness :
    filter_articles_by_keywords_py [⟨none, some "l", "s", none, none⟩] ["x"] =
      none ∧
    (⟨some "Acme announces merger", none, "", none, none⟩ : Article) ∈
      ([⟨some "Acme announces merger", none, "", none, none⟩] : List Article) :=
  ⟨C6_keyword_filter_amended.2.1 [⟨none, some "l", "s", none, none⟩] ["x"]
      (by decide) ⟨⟨none, some "l", "s", none, none⟩, by decide, rfl⟩,
   (C6_keyword_filter_amended.2.2.1
      [⟨some "Acme announces merger", none, "", none, none⟩] ["merger"]
      ⟨some "Acme announces merger", none, "", none, none⟩
      [⟨some "Acme announces merger", none, "", none, none⟩]
      (by decide) (by decide)).mpr ⟨by decide, by decide⟩⟩

/-- C5 counterexample: the primary fetcher returns an article whose
present publish-date string is the empty string — the line-93 guard
passes it without parsing — yet the recency check of spec 4.3 rejects
that string (no format parses it), so not every returned article has
passed the recency check. -/
theorem C5_counterexample :
    serpToArticle ⟨some "T", some "L", none, some "", none⟩ ∈
      fetch_news_serpapi ⟨2024, 1, 1, 0, 0, 0⟩
        (some [⟨some "T", some "L", none, some "", none⟩]) ∧
    (serpToArticle ⟨some "T", some "L", none, some "", none⟩).pub_date =
      some "" ∧
    recencyKeep ⟨2024, 1, 1, 0, 0, 0⟩ (some "") = false := by
  refine ⟨by decide, rfl, rfl⟩

/-- C5 amended: every article the primary fetcher returns satisfied the
line-93 guard, which differs from the 4.3 recency filter exactly on a
present empty date string — so every primary article whose date is
absent or nonempty has passed the recency filter, while one with a
present empty date string is returned without passing it.  The fallback
fetcher equals its spec-side variant with the 4.3 filter applied to each
built article: its synthesized current-time date always passes, so every
fallback article has passed the recency filter. -/
theorem C5_fetchers_recency_amended :
    (∀ (now : DT) (resp : Option (List SerpItem)) (a : Article),
      a ∈ fetch_news_serpapi now resp → serpItemKept now a.pub_date = true) ∧
    (∀ (now : DT) (resp : Option (List SerpItem)) (a : Article),
      a ∈ fetch_news_serpapi now resp → a.pub_date ≠ some "" →
        recencyKeep now a.pub_date = true) ∧
    (∀ (now : DT) (resp : Option (List GoogleItem)), ValidDT now →
      fetch_news_googleapi now resp = fetch_news_googleapi_recency now resp) ∧
    (∀ (now : DT) (resp : Option (List GoogleItem)) (a : Article),
      ValidDT now → a ∈ fetch_news_googleapi now resp →
        a.pub_date = some (isoFormat now) ∧
        recencyKeep now a.pub_date = true) := by
  have hserp : ∀ (now : DT) (resp : Option (List SerpItem)) (a : Article),
      a ∈ fetch_news_serpapi now resp → serpItemKept now a.pub_date = true := by
    intro now resp a ha
    cases resp with
    | none => cases ha
    | some data =>
      have ha2 := List.mem_of_mem_take ha
      rcases List.mem_map.mp ha2 with ⟨i, hi, hie⟩
      have hkept := (List.mem_filter.mp hi).2
      rw [← hie]
      exact hkept
  refine ⟨hserp, ?_, ?_, ?_⟩
  · intro now resp a ha hne
    have hkept := hserp now resp a ha
    cases hdate : a.pub_date with
    | none => rfl
    | some s =>
      have hs : s ≠ "" := fun h => hne (by rw [hdate, h])
      rw [hdate] at hkept
      show article_within_last_24_hours now s = true
      rcases Bool.or_eq_true_iff.mp hkept with h2 | h2
      · exact absurd (by simpa using h2) hs
      · exact h2
  · intro now resp hv
    cases resp with
    | none => rfl
    | some items =>
      show (items.map (googleToArticle now)).take 5 =
        ((items.map (googleToArticle now)).filter
          fun a => recencyKeep now a.pub_date).take 5
      rw [show (items.map (googleToArticle now)).filter
          (fun a => recencyKeep now a.pub_date) =
          items.map (googleToArticle now) from
        List.filter_eq_self.mpr (by
          intro a ha
          rcases List.mem_map.mp ha with ⟨i, _, hie⟩
          rw [← hie]
          show recencyKeep now (some (isoFormat now)) = true
          show article_within_last_24_hours now (isoFormat now) = true
          exact within_isoFormat now hv)]
  · intro now resp a hv ha
    cases resp with
    | none => cases ha
    | some items =>
      have ha2 := List.mem_of_mem_take ha
      rcases List.mem_map.mp ha2 with ⟨i, _, hie⟩
      refine ⟨by rw [← hie]; rfl, ?_⟩
      rw [show a.pub_date = some (isoFormat now) from by rw [← hie]; rfl]
      show article_within_last_24_hours now (isoFormat now) = true
      exact within_isoFormat now hv

/-- Witness for the amended C5 at a concrete time and one-item
responses. -/
theorem C5_amended_witness :
    recencyKeep ⟨2024, 1, 1, 0, 0, 0⟩
      (serpToArticle ⟨some "T", some "L", none, none, none⟩).pub_date = true ∧
    fetch_news_googleapi ⟨2024, 1, 1, 0, 0, 0⟩
      (some [⟨some "T", some "L", none, none⟩]) =
    fetch_news_googleapi_recency ⟨2024, 1, 1, 0, 0, 0⟩
      (some [⟨some "T", some "L", none, none⟩]) :=
  ⟨C5_fetchers_recency_amended.2.1 ⟨2024, 1, 1, 0, 0, 0⟩
      (some [⟨some "T", some "L", none, none, none⟩]) _ (by decide) (by decide),
   C5_fetchers_recency_amended.2.2.1 ⟨2024, 1, 1, 0, 0, 0⟩
      (some [⟨some "T", some "L", none, none⟩])
      (by unfold ValidDT; decide)⟩

/-- C8: for every run reaching the fetch pipeline, the saved seen-set is
exactly the loaded one plus the hashes of the digest's articles set to
`True` — nothing is removed — and neither the saved seen-set nor the
digest depends on whether SMTP delivery would succeed (line 205 runs
unconditionally and `send_email` swallows its exceptions). -/
theorem C8_seen_set_persistence (now : DT)
    (sr : String → Option (List String) → Option (List SerpItem))
    (gr : String → Option (List String) → Option (List GoogleItem))
    (fl : List (String × List String)) (orgs : List String) (s0 : Seen)
    (ok : Bool) :
    (∀ k, dictGet (mainRun now sr gr fl orgs s0 ok).saved k =
      if k ∈ allDigestHashes (mainRun now sr gr fl orgs s0 ok).digest
      then some (Jv.bool true) else dictGet s0 k) ∧
    (∀ ok2 : Bool,
      (mainRun now sr gr fl orgs s0 ok2).saved =
        (mainRun now sr gr fl orgs s0 ok).saved ∧
      (mainRun now sr gr fl orgs s0 ok2).digest =
        (mainRun now sr gr fl orgs s0 ok).digest) := by
  refine ⟨?_, fun ok2 => ⟨rfl, rfl⟩⟩
  intro k
  show dictGet (runOrgs now sr gr fl orgs s0 []).stored k =
    if k ∈ allDigestHashes (runOrgs now sr gr fl orgs s0 []).digest
    then some (Jv.bool true) else dictGet s0 k
  have hfaith := (runOrgs_digest_faithful now sr gr fl orgs s0 []
    (by intro o ho; simp [dictGet] at ho)).2
  have hiff : k ∈ logHashes (runOrgs now sr gr fl orgs s0 []).log ↔
      k ∈ allDigestHashes (runOrgs now sr gr fl orgs s0 []).digest := by
    constructor
    · intro hk
      rcases List.mem_map.mp hk with ⟨pr, hpr, hke⟩
      rcases hfaith pr hpr with ⟨l, hget, hmem⟩
      rw [← hke]
      exact mem_allDigestHashes_of_get _ _ _ _ hget hmem
    · intro hk
      rcases runOrgs_digest_hashes_sub now sr gr fl orgs s0 [] k hk with h | h
      · cases h
      · exact h
  rw [runOrgs_stored_char]
  by_cases hk : k ∈ allDigestHashes (runOrgs now sr gr fl orgs s0 []).digest
  · rw [if_pos (hiff.mpr hk), if_pos hk]
  · rw [if_neg (fun h => hk (hiff.mp h)), if_neg hk]

/-- C9: an organization keys the digest exactly when some fresh article
was accepted for it this run, and no digest entry is an empty list. -/
theorem C9_digest_keys_iff_accepted (now : DT)
    (sr : String → Option (List String) → Option (List SerpItem))
    (gr : String → Option (List String) → Option (List GoogleItem))
    (fl : List (String × List String)) (orgs : List String) (s0 : Seen)
    (ok : Bool) :
    (∀ o l, dictGet (mainRun now sr gr fl orgs s0 ok).digest o = some l →
      l ≠ []) ∧
    (∀ o, (dictGet (mainRun now sr gr fl orgs s0 ok).digest o).isSome ↔
      ∃ a, (o, a) ∈ (mainRun now sr gr fl orgs s0 ok).log) := by
  constructor
  · show ∀ o l, dictGet (runOrgs now sr gr fl orgs s0 []).digest o = some l →
      l ≠ []
    exact runOrgs_digest_nonempty now sr gr fl orgs s0 []
      (by intro o l h; cases h)
  · intro o
    show (dictGet (runOrgs now sr gr fl orgs s0 []).digest o).isSome ↔
      ∃ a, (o, a) ∈ (runOrgs now sr gr fl orgs s0 []).log
    have := runOrgs_key_iff_log now sr gr fl orgs s0 [] o
    simpa [dictGet] using this

/-- Witness for C9 at a concrete run accepting one article. -/
theorem C9_witness :
    [serpToArticle ⟨some "T", some "L", none, none, none⟩] ≠ [] :=
  (C9_digest_keys_iff_accepted ⟨2024, 1, 1, 0, 0, 0⟩
    (fun _ _ => some [⟨some "T", some "L", none, none, none⟩])
    (fun _ _ => none) [] ["Acme"] [] true).1 "Acme"
    [serpToArticle ⟨some "T", some "L", none, none, none⟩] (by decide)
